import Mathlib

/-
Verification of the daily-maximum aggregation core of the monitoring API
(src/app.py).  The aggregation routine `calculate_and_store_max_metrics`
reads the shift records for a date, reduces them to per-component maxima
over the two numeric metric groups (`cpu_usage`, `memory_usage`) and a
first-write-wins merge of the availability maps, and stores the result.
The ingestion route `add_data` inserts a record and triggers the
aggregation exactly when the per-date record count equals 3.

The embedding below mirrors the Python line by line: JSON-ish metric
values become the inductive `Value`; Python dicts become association
lists iterated in insertion order (`alookup` is `dict.__getitem__` /
`in`, `setKey` is in-place assignment to an existing key, appending is
assignment to a fresh key); `shift.get(field, {})` becomes
`Option.getD _ []`.
-/

namespace Monitoring

/-- A metric value as found in a submitted JSON document: numeric
(Python `int`/`float`, modelled as `ℚ`), a string, or anything else. -/
inductive Value where
  | num (q : ℚ)
  | str (s : String)
  | other
deriving DecidableEq

/-- One shift submission.  `Option` on the three mapping fields models a
document that lacks the field entirely; the source reads them with
`shift.get("cpu_usage", {})` etc.  The availability field is spelled
`Application_Availability` because that is the key the source reads from
shift documents (line 67 of src/app.py). -/
structure ShiftRecord where
  date : String
  cpu_usage : Option (List (String × Value))
  memory_usage : Option (List (String × Value))
  Application_Availability : Option (List (String × Value))
deriving DecidableEq

/-- First value bound to key `k`, i.e. Python `d[k]` / `d.get(k)`;
`(alookup d k).isSome` is Python `k in d`. -/
def alookup {α : Type} : List (String × α) → String → Option α
  | [], _ => none
  | p :: rest, k => if p.1 = k then some p.2 else alookup rest k

/-- Python `d[k] = v` when `k` is already a key of the dict: the entry is
updated in place, keeping its position. -/
def setKey (m : List (String × ℚ)) (k : String) (q : ℚ) : List (String × ℚ) :=
  m.map (fun p => if p.1 = k then (p.1, q) else p)

/-- One iteration of the max-update loop (src/app.py lines 70-73 and
76-79): given the accumulated maxima `m` and one `(key, value)` item of
the metric dict, skip non-numeric values; otherwise record `value` when
the key is unseen or `value` strictly exceeds the stored maximum. -/
def stepMaxPair (m : List (String × ℚ)) (kv : String × Value) : List (String × ℚ) :=
  match kv.2 with
  | Value.num q =>
    match alookup m kv.1 with
    | none => m ++ [(kv.1, q)]
    | some w => if q > w then setKey m kv.1 q else m
  | _ => m

/-- One iteration of the availability loop (src/app.py lines 82-84):
record the value only when the key has not been recorded yet. -/
def stepAvailPair (m : List (String × Value)) (kv : String × Value) : List (String × Value) :=
  match alookup m kv.1 with
  | some _ => m
  | none => m ++ [kv]

/-- The three accumulators of the aggregation loop (`max_cpu`,
`max_memory`, `application_availability` in the source). -/
structure MaxAcc where
  max_cpu : List (String × ℚ)
  max_memory : List (String × ℚ)
  application_availability : List (String × Value)
deriving DecidableEq

/-- The body of `for shift in shifts` (src/app.py lines 64-84): fetch the
three mapping fields with an empty-dict default and fold each of the
three item loops over the corresponding accumulator. -/
def shiftStep (acc : MaxAcc) (shift : ShiftRecord) : MaxAcc :=
  let cpu_usage := shift.cpu_usage.getD []
  let memory_usage := shift.memory_usage.getD []
  let app_avail := shift.Application_Availability.getD []
  { max_cpu := cpu_usage.foldl stepMaxPair acc.max_cpu
    max_memory := memory_usage.foldl stepMaxPair acc.max_memory
    application_availability := app_avail.foldl stepAvailPair acc.application_availability }

/-- The whole reduction loop, starting from the three empty dicts of
src/app.py lines 59-61. -/
def aggregateShifts (shifts : List ShiftRecord) : MaxAcc :=
  shifts.foldl shiftStep { max_cpu := [], max_memory := [], application_availability := [] }

/-- A value of the assembled summary document: the date string, a
numeric-valued mapping, or a raw-valued mapping. -/
inductive DocValue where
  | str (s : String)
  | numMap (d : List (String × ℚ))
  | valMap (d : List (String × Value))
deriving DecidableEq

/-- Outcome of the aggregation: either the early-return diagnostic of
src/app.py lines 54-56 (logged, nothing written), or the summary
document inserted into the daily-max collection. -/
inductive AggOutcome where
  | diagnostic (msg : String)
  | stored (payload : List (String × DocValue))
deriving DecidableEq

/-- `calculate_and_store_max_metrics` (src/app.py lines 49-96), given the
result of `metrics_collection.find({"date": date})`.  With fewer than 3
shifts it logs an error and returns without writing; otherwise it runs
the reduction loop and assembles the `max_metrics` document of lines
87-92, whose keys are `date`, `cpu_usage`, `memory_usage` and
`application_availability`. -/
def calculate_and_store_max_metrics (date : String) (shifts : List ShiftRecord) : AggOutcome :=
  if shifts.length < 3 then
    AggOutcome.diagnostic
      ("Not enough shifts for " ++ date ++ ". Expected 3, found " ++
        toString shifts.length ++ ".")
  else
    AggOutcome.stored
      [("date", DocValue.str date),
       ("cpu_usage", DocValue.numMap (aggregateShifts shifts).max_cpu),
       ("memory_usage", DocValue.numMap (aggregateShifts shifts).max_memory),
       ("application_availability",
        DocValue.valMap (aggregateShifts shifts).application_availability)]

/-- The two Mongo collections: shift submissions in insertion order, and
the stored summary documents. -/
structure Store where
  metrics : List ShiftRecord
  daily_max : List (List (String × DocValue))
deriving DecidableEq

/-- `metrics_collection.count_documents({"date": d})`. -/
def countByDate (ms : List ShiftRecord) (d : String) : Nat :=
  (ms.filter (fun r => r.date == d)).length

/-- Running the aggregation against the store: the query
`metrics_collection.find({"date": date})` returns the records whose date
matches, in insertion order. -/
def runAgg (st : Store) (date : String) : AggOutcome :=
  calculate_and_store_max_metrics date (st.metrics.filter (fun r => r.date == date))

/-- The aggregation's effect on the store:
`daily_max_collection.insert_one(max_metrics)` on success, nothing on the
diagnostic path. -/
def applyAgg (st : Store) (date : String) : Store :=
  match runAgg st date with
  | AggOutcome.diagnostic _ => st
  | AggOutcome.stored p => { st with daily_max := st.daily_max ++ [p] }

/-- The `/add` route (src/app.py lines 29-43): reject an empty body with
400; otherwise insert, count the records for the submitted date, invoke
the aggregation exactly when the count equals 3, and answer 201.
Returns the new store, the HTTP status, and whether the aggregation was
invoked. -/
def add_data (st : Store) (data : Option ShiftRecord) : Store × Nat × Bool :=
  match data with
  | none => (st, 400, false)
  | some r =>
    let st1 : Store := { st with metrics := st.metrics ++ [r] }
    if countByDate st1.metrics r.date = 3 then (applyAgg st1 r.date, 201, true)
    else (st1, 201, false)

/-! ### Specification-side helpers (read off the spec's wording, used to
state the claims about the embedded code) -/

/-- The `cpu_usage` mapping of a shift, empty when the field is absent. -/
def cpuMap (s : ShiftRecord) : List (String × Value) := s.cpu_usage.getD []

/-- The `memory_usage` mapping of a shift, empty when the field is absent. -/
def memMap (s : ShiftRecord) : List (String × Value) := s.memory_usage.getD []

/-- The availability mapping of a shift, empty when the field is absent. -/
def availMap (s : ShiftRecord) : List (String × Value) := s.Application_Availability.getD []

/-- The numeric values bound to component `c` in one metric dict. -/
def numericVals (d : List (String × Value)) (c : String) : List ℚ :=
  d.filterMap (fun p =>
    if p.1 = c then
      match p.2 with
      | Value.num q => some q
      | _ => none
    else none)

/-- All numeric values bound to component `c` in the metric group
selected by `f`, across a list of shift records in order. -/
def allVals (f : ShiftRecord → List (String × Value)) : List ShiftRecord → String → List ℚ
  | [], _ => []
  | s :: rest, c => numericVals (f s) c ++ allVals f rest c

/-- The availability items of all shifts, concatenated in retrieval
order; its `alookup` gives the value of the earliest shift mentioning a
component. -/
def allAvailPairs : List ShiftRecord → List (String × Value)
  | [] => []
  | s :: rest => availMap s ++ allAvailPairs rest

/-- Running maximum of a list of rationals starting from an optional
seed; `maxFrom none l` is the maximum of `l`, or `none` when `l` is
empty. -/
def maxFrom : Option ℚ → List ℚ → Option ℚ
  | acc, [] => acc
  | none, q :: l => maxFrom (some q) l
  | some a, q :: l => maxFrom (some (max a q)) l

/-- First of two options, biased to the left. -/
def firstOf {α : Type} : Option α → Option α → Option α
  | some v, _ => some v
  | none, b => b

/-- Drop the non-numeric entries of a metric dict. -/
def stripNonNumeric (d : List (String × Value)) : List (String × Value) :=
  d.filter (fun p =>
    match p.2 with
    | Value.num _ => true
    | _ => false)

/-- Drop the non-numeric entries of both numeric metric groups of a
shift record, leaving the availability field alone. -/
def stripShift (s : ShiftRecord) : ShiftRecord :=
  { s with cpu_usage := some (stripNonNumeric (cpuMap s)),
           memory_usage := some (stripNonNumeric (memMap s)) }

/-- The key list of the document an aggregation outcome stores (empty on
the diagnostic path). -/
def outcomeKeys : AggOutcome → List String
  | AggOutcome.diagnostic _ => []
  | AggOutcome.stored p => p.map Prod.fst

/-- The stored document of an aggregation outcome (empty on the
diagnostic path). -/
def outcomePayload : AggOutcome → List (String × DocValue)
  | AggOutcome.diagnostic _ => []
  | AggOutcome.stored p => p

/-! ### Concrete sample data (the worked example of the spec, plus two
variations exercising non-numeric and empty values) -/

/-- Shift 1 of the spec's example scenario. -/
def shiftEx1 : ShiftRecord :=
  { date := "2024-01-01",
    cpu_usage := some [("a", Value.num 1)],
    memory_usage := some [("a", Value.num 100)],
    Application_Availability := some [("a", Value.str "up")] }

/-- Shift 2 of the spec's example scenario. -/
def shiftEx2 : ShiftRecord :=
  { date := "2024-01-01",
    cpu_usage := some [("a", Value.num 3), ("b", Value.num 1)],
    memory_usage := some [("a", Value.num 80)],
    Application_Availability := some [("b", Value.str "down")] }

/-- Shift 3 of the spec's example scenario (no availability field). -/
def shiftEx3 : ShiftRecord :=
  { date := "2024-01-01",
    cpu_usage := some [("a", Value.num 2)],
    memory_usage := some [("a", Value.num 120), ("b", Value.num 50)],
    Application_Availability := none }

/-- The three example shifts in submission order. -/
def shiftsEx : List ShiftRecord := [shiftEx1, shiftEx2, shiftEx3]

/-- The document the aggregation stores for the example scenario. -/
def payloadEx : List (String × DocValue) :=
  outcomePayload (calculate_and_store_max_metrics "2024-01-01" shiftsEx)

/-- Variation: component `b` appears in the cpu group of the second
shift, but only with a non-numeric value. -/
def shiftB1 : ShiftRecord :=
  { date := "2024-01-02", cpu_usage := some [("a", Value.num 1)],
    memory_usage := some [], Application_Availability := some [] }

/-- Second record of the non-numeric variation. -/
def shiftB2 : ShiftRecord :=
  { date := "2024-01-02", cpu_usage := some [("b", Value.str "down")],
    memory_usage := some [], Application_Availability := some [] }

/-- Third record of the non-numeric variation. -/
def shiftB3 : ShiftRecord :=
  { date := "2024-01-02", cpu_usage := some [],
    memory_usage := some [], Application_Availability := some [] }

/-- The non-numeric variation in submission order. -/
def shiftsB : List ShiftRecord := [shiftB1, shiftB2, shiftB3]

/-- Variation: the first shift mentioning component `a` carries the
empty string as its availability value, a later shift carries `"up"`. -/
def shiftC1 : ShiftRecord :=
  { date := "2024-01-03", cpu_usage := some [], memory_usage := some [],
    Application_Availability := some [("a", Value.str "")] }

/-- Second record of the empty-value variation. -/
def shiftC2 : ShiftRecord :=
  { date := "2024-01-03", cpu_usage := some [], memory_usage := some [],
    Application_Availability := some [("a", Value.str "up")] }

/-- Third record of the empty-value variation. -/
def shiftC3 : ShiftRecord :=
  { date := "2024-01-03", cpu_usage := some [], memory_usage := some [],
    Application_Availability := some [] }

/-- The empty-value variation in submission order. -/
def shiftsC : List ShiftRecord := [shiftC1, shiftC2, shiftC3]

/-- A store holding no records at all. -/
def emptyStore : Store := { metrics := [], daily_max := [] }

/-! ### Association-list lemmas -/

theorem firstOf_none_right {α : Type} (a : Option α) : firstOf a none = a := by
  cases a <;> rfl

theorem firstOf_assoc {α : Type} (a b c : Option α) :
    firstOf (firstOf a b) c = firstOf a (firstOf b c) := by
  cases a <;> rfl

theorem alookup_append {α : Type} (l1 l2 : List (String × α)) (c : String) :
    alookup (l1 ++ l2) c = firstOf (alookup l1 c) (alookup l2 c) := by
  induction l1 with
  | nil => rfl
  | cons p rest ih =>
    by_cases h : p.1 = c <;> simp [alookup, h, ih, firstOf]

theorem alookup_setKey (m : List (String × ℚ)) (k : String) (q : ℚ) (c : String) :
    alookup (setKey m k q) c =
      if c = k then (alookup m c).map (fun _ => q) else alookup m c := by
  induction m with
  | nil => by_cases h : c = k <;> simp [setKey, alookup, h]
  | cons p rest ih =>
    obtain ⟨a, b⟩ := p
    by_cases hak : a = k
    · subst hak
      by_cases hac : a = c
      · subst hac
        simp [setKey, alookup]
      · have hca : ¬ (c = a) := fun h => hac h.symm
        simpa [setKey, alookup, hac, hca] using ih
    · by_cases hac : a = c
      · subst hac
        have hak' : ¬ (a = k) := hak
        simp [setKey, alookup, hak']
      · simpa [setKey, alookup, hak, hac] using ih

/-! ### The maximum fold -/

theorem maxFrom_append (l1 l2 : List ℚ) (acc : Option ℚ) :
    maxFrom acc (l1 ++ l2) = maxFrom (maxFrom acc l1) l2 := by
  induction l1 generalizing acc with
  | nil => cases acc <;> rfl
  | cons q l ih => cases acc <;> simp [maxFrom, ih]

theorem maxFrom_some_spec (l : List ℚ) (a : ℚ) :
    ∃ b, maxFrom (some a) l = some b ∧ a ≤ b ∧ (b = a ∨ b ∈ l) ∧ ∀ r ∈ l, r ≤ b := by
  induction l generalizing a with
  | nil => exact ⟨a, rfl, le_refl a, Or.inl rfl, by simp⟩
  | cons q rest ih =>
    obtain ⟨b, hb, hab, hmem, hmax⟩ := ih (max a q)
    refine ⟨b, hb, le_trans (le_max_left a q) hab, ?_, ?_⟩
    · rcases hmem with h | h
      · rcases max_choice a q with hm | hm
        · exact Or.inl (h.trans hm)
        · exact Or.inr (by simp [h.trans hm])
      · exact Or.inr (List.mem_cons_of_mem _ h)
    · intro r hr
      rcases List.mem_cons.mp hr with h | h
      · exact h ▸ le_trans (le_max_right a q) hab
      · exact hmax r h

theorem maxFrom_none_eq_none_iff (l : List ℚ) : maxFrom none l = none ↔ l = [] := by
  cases l with
  | nil => simp [maxFrom]
  | cons q rest =>
    obtain ⟨b, hb, -⟩ := maxFrom_some_spec rest q
    simp [maxFrom, hb]

/-- Uniqueness of the maximum: if `q` is a member of `l` bounding every
member, then the running maximum of `l` is exactly `q`. -/
theorem maxFrom_none_eq_of_isMax (l : List ℚ) (q : ℚ) (hq : q ∈ l)
    (hbound : ∀ r ∈ l, r ≤ q) : maxFrom none l = some q := by
  cases l with
  | nil => cases hq
  | cons q0 rest =>
    obtain ⟨b, hb, hq0b, hmem, hmax⟩ := maxFrom_some_spec rest q0
    have hbl : ∀ r ∈ q0 :: rest, r ≤ b := by
      intro r hr
      rcases List.mem_cons.mp hr with h | h
      · exact h ▸ hq0b
      · exact hmax r h
    have hbq : b ≤ q := by
      rcases hmem with h | h
      · exact h ▸ hbound q0 (List.mem_cons_self q0 rest)
      · exact hbound b (List.mem_cons_of_mem _ h)
    have hqb : q ≤ b := hbl q hq
    show maxFrom (some q0) rest = some q
    rw [hb, le_antisymm hbq hqb]

/-- Lookup after folding one metric dict through the max-update step:
the result at `c` is the running maximum of the numeric values bound to
`c`, seeded with whatever the accumulator already stored. -/
theorem foldMax_lookup (d : List (String × Value)) (m : List (String × ℚ)) (c : String) :
    alookup (d.foldl stepMaxPair m) c = maxFrom (alookup m c) (numericVals d c) := by
  induction d generalizing m with
  | nil => cases hm : alookup m c <;> simp [numericVals, maxFrom, hm]
  | cons kv rest ih =>
    obtain ⟨k, v⟩ := kv
    rw [List.foldl_cons, ih]
    by_cases hk : k = c
    · subst hk
      cases v with
      | num q =>
        have hvals : numericVals ((k, Value.num q) :: rest) k = q :: numericVals rest k := by
          simp [numericVals]
        rw [hvals]
        cases hm : alookup m k with
        | none =>
          have hstep : stepMaxPair m (k, Value.num q) = m ++ [(k, q)] := by
            simp [stepMaxPair, hm]
          rw [hstep, alookup_append, hm]
          simp [alookup, firstOf, maxFrom]
        | some w =>
          by_cases hqw : q > w
          · have hstep : stepMaxPair m (k, Value.num q) = setKey m k q := by
              simp [stepMaxPair, hm, hqw]
            rw [hstep, alookup_setKey, if_pos rfl, hm]
            simp [maxFrom, max_eq_right (le_of_lt hqw)]
          · have hstep : stepMaxPair m (k, Value.num q) = m := by
              simp [stepMaxPair, hm, hqw]
            rw [hstep, hm]
            simp [maxFrom, max_eq_left (le_of_not_lt hqw)]
      | str s =>
        simp [stepMaxPair, numericVals]
      | other =>
        simp [stepMaxPair, numericVals]
    · have hvals : numericVals ((k, v) :: rest) c = numericVals rest c := by
        simp [numericVals, hk]
      rw [hvals]
      cases v with
      | num q =>
        cases hm : alookup m k with
        | none =>
          have hstep : stepMaxPair m (k, Value.num q) = m ++ [(k, q)] := by
            simp [stepMaxPair, hm]
          rw [hstep, alookup_append]
          simp [alookup, hk, firstOf_none_right]
        | some w =>
          by_cases hqw : q > w
          · have hstep : stepMaxPair m (k, Value.num q) = setKey m k q := by
              simp [stepMaxPair, hm, hqw]
            have hck : ¬ (c = k) := fun h => hk h.symm
            rw [hstep, alookup_setKey, if_neg hck]
          · have hstep : stepMaxPair m (k, Value.num q) = m := by
              simp [stepMaxPair, hm, hqw]
            rw [hstep]
      | str s =>
        simp [stepMaxPair]
      | other =>
        simp [stepMaxPair]

/-! ### Shift-level lemmas for the two numeric groups -/

theorem foldShift_cpu_lookup (shifts : List ShiftRecord) (acc : MaxAcc) (c : String) :
    alookup (List.foldl shiftStep acc shifts).max_cpu c =
      maxFrom (alookup acc.max_cpu c) (allVals cpuMap shifts c) := by
  induction shifts generalizing acc with
  | nil => cases hm : alookup acc.max_cpu c <;> simp [allVals, maxFrom, hm]
  | cons s rest ih =>
    rw [List.foldl_cons, ih, allVals, maxFrom_append]
    have hstep : (shiftStep acc s).max_cpu = (cpuMap s).foldl stepMaxPair acc.max_cpu := rfl
    rw [hstep, foldMax_lookup]

theorem foldShift_mem_lookup (shifts : List ShiftRecord) (acc : MaxAcc) (c : String) :
    alookup (List.foldl shiftStep acc shifts).max_memory c =
      maxFrom (alookup acc.max_memory c) (allVals memMap shifts c) := by
  induction shifts generalizing acc with
  | nil => cases hm : alookup acc.max_memory c <;> simp [allVals, maxFrom, hm]
  | cons s rest ih =>
    rw [List.foldl_cons, ih, allVals, maxFrom_append]
    have hstep : (shiftStep acc s).max_memory = (memMap s).foldl stepMaxPair acc.max_memory := rfl
    rw [hstep, foldMax_lookup]

theorem aggregate_cpu_eq_maxFrom (shifts : List ShiftRecord) (c : String) :
    alookup (aggregateShifts shifts).max_cpu c = maxFrom none (allVals cpuMap shifts c) := by
  have h := foldShift_cpu_lookup shifts
    { max_cpu := [], max_memory := [], application_availability := [] } c
  simpa [aggregateShifts, alookup] using h

theorem aggregate_mem_eq_maxFrom (shifts : List ShiftRecord) (c : String) :
    alookup (aggregateShifts shifts).max_memory c = maxFrom none (allVals memMap shifts c) := by
  have h := foldShift_mem_lookup shifts
    { max_cpu := [], max_memory := [], application_availability := [] } c
  simpa [aggregateShifts, alookup] using h

/-! ### The availability fold -/

theorem foldAvail_lookup (d : List (String × Value)) (m : List (String × Value)) (c : String) :
    alookup (d.foldl stepAvailPair m) c = firstOf (alookup m c) (alookup d c) := by
  induction d generalizing m with
  | nil => cases hm : alookup m c <;> simp [alookup, firstOf, hm]
  | cons kv rest ih =>
    obtain ⟨k, v⟩ := kv
    rw [List.foldl_cons, ih]
    by_cases hk : k = c
    · subst hk
      cases hm : alookup m k with
      | some w =>
        have hstep : stepAvailPair m (k, v) = m := by simp [stepAvailPair, hm]
        rw [hstep, hm]
        simp [alookup, firstOf]
      | none =>
        have hstep : stepAvailPair m (k, v) = m ++ [(k, v)] := by simp [stepAvailPair, hm]
        rw [hstep, alookup_append, hm]
        simp [alookup, firstOf]
    · have hck : ¬ (c = k) := fun h => hk h.symm
      have hcons : alookup ((k, v) :: rest) c = alookup rest c := by simp [alookup, hk]
      rw [hcons]
      cases hm : alookup m k with
      | some w =>
        have hstep : stepAvailPair m (k, v) = m := by simp [stepAvailPair, hm]
        rw [hstep]
      | none =>
        have hstep : stepAvailPair m (k, v) = m ++ [(k, v)] := by simp [stepAvailPair, hm]
        rw [hstep, alookup_append]
        have hsingle : alookup [(k, v)] c = none := by simp [alookup, hk]
        rw [hsingle, firstOf_none_right]

theorem foldShift_avail_lookup (shifts : List ShiftRecord) (acc : MaxAcc) (c : String) :
    alookup (List.foldl shiftStep acc shifts).application_availability c =
      firstOf (alookup acc.application_availability c) (alookup (allAvailPairs shifts) c) := by
  induction shifts generalizing acc with
  | nil =>
    rw [List.foldl_nil]
    simp [allAvailPairs, alookup, firstOf_none_right]
  | cons s rest ih =>
    rw [List.foldl_cons, ih]
    have hstep : (shiftStep acc s).application_availability =
        (availMap s).foldl stepAvailPair acc.application_availability := rfl
    rw [hstep, foldAvail_lookup]
    have hpairs : allAvailPairs (s :: rest) = availMap s ++ allAvailPairs rest := rfl
    rw [hpairs, alookup_append, firstOf_assoc]

theorem aggregate_avail_eq_first (shifts : List ShiftRecord) (c : String) :
    alookup (aggregateShifts shifts).application_availability c =
      alookup (allAvailPairs shifts) c := by
  have h := foldShift_avail_lookup shifts
    { max_cpu := [], max_memory := [], application_availability := [] } c
  simpa [aggregateShifts, alookup, firstOf] using h

/-! ### Membership characterizations -/

theorem mem_numericVals (d : List (String × Value)) (c : String) (q : ℚ) :
    q ∈ numericVals d c ↔ (c, Value.num q) ∈ d := by
  induction d with
  | nil => simp [numericVals]
  | cons p rest ih =>
    obtain ⟨k, v⟩ := p
    by_cases hk : k = c
    · subst hk
      cases v with
      | num r => simp [numericVals, List.filterMap_cons] at ih ⊢; rw [ih]
      | str s => simp [numericVals, List.filterMap_cons] at ih ⊢; rw [ih]
      | other => simp [numericVals, List.filterMap_cons] at ih ⊢; rw [ih]
    · have hck : ¬ (c = k) := fun h => hk h.symm
      simp [numericVals, List.filterMap_cons, hk, hck] at ih ⊢
      exact ih

theorem mem_allVals (f : ShiftRecord → List (String × Value)) (shifts : List ShiftRecord)
    (c : String) (q : ℚ) :
    q ∈ allVals f shifts c ↔ ∃ s ∈ shifts, (c, Value.num q) ∈ f s := by
  induction shifts with
  | nil => simp [allVals]
  | cons s rest ih =>
    simp [allVals, List.mem_append, ih, mem_numericVals]

theorem allVals_ne_nil_iff (f : ShiftRecord → List (String × Value))
    (shifts : List ShiftRecord) (c : String) :
    allVals f shifts c ≠ [] ↔ ∃ s ∈ shifts, ∃ q : ℚ, (c, Value.num q) ∈ f s := by
  constructor
  · intro h
    cases hv : allVals f shifts c with
    | nil => exact absurd hv h
    | cons q l =>
      have hq : q ∈ allVals f shifts c := hv ▸ List.mem_cons_self q l
      obtain ⟨s, hs, hmem⟩ := (mem_allVals f shifts c q).mp hq
      exact ⟨s, hs, q, hmem⟩
  · rintro ⟨s, hs, q, hmem⟩ hnil
    have hq : q ∈ allVals f shifts c := (mem_allVals f shifts c q).mpr ⟨s, hs, hmem⟩
    rw [hnil] at hq
    cases hq

/-! ### Non-numeric values are inert -/

theorem foldMax_strip (d : List (String × Value)) (m : List (String × ℚ)) :
    (stripNonNumeric d).foldl stepMaxPair m = d.foldl stepMaxPair m := by
  induction d generalizing m with
  | nil => rfl
  | cons kv rest ih =>
    obtain ⟨k, v⟩ := kv
    cases v with
    | num q =>
      have hs : stripNonNumeric ((k, Value.num q) :: rest) =
          (k, Value.num q) :: stripNonNumeric rest := by simp [stripNonNumeric]
      rw [hs, List.foldl_cons, List.foldl_cons]
      exact ih _
    | str s =>
      have hs : stripNonNumeric ((k, Value.str s) :: rest) = stripNonNumeric rest := by
        simp [stripNonNumeric]
      have hstep : stepMaxPair m (k, Value.str s) = m := rfl
      rw [hs, List.foldl_cons, hstep]
      exact ih m
    | other =>
      have hs : stripNonNumeric ((k, Value.other) :: rest) = stripNonNumeric rest := by
        simp [stripNonNumeric]
      have hstep : stepMaxPair m (k, Value.other) = m := rfl
      rw [hs, List.foldl_cons, hstep]
      exact ih m

theorem shiftStep_strip (acc : MaxAcc) (s : ShiftRecord) :
    shiftStep acc (stripShift s) = shiftStep acc s := by
  show shiftStep acc
      { s with cpu_usage := some (stripNonNumeric (cpuMap s)),
               memory_usage := some (stripNonNumeric (memMap s)) } = shiftStep acc s
  simp only [shiftStep, Option.getD_some]
  rw [foldMax_strip, foldMax_strip]
  rfl

theorem aggregate_strip (shifts : List ShiftRecord) (acc : MaxAcc) :
    List.foldl shiftStep acc (shifts.map stripShift) = List.foldl shiftStep acc shifts := by
  induction shifts generalizing acc with
  | nil => rfl
  | cons s rest ih =>
    rw [List.map_cons, List.foldl_cons, List.foldl_cons, shiftStep_strip, ih]

/-! ### The claims -/

/-- C1: For every set of at most three shift records sharing a date, and
every component `c`, the per-component CPU maximum computed by the
aggregation loop is `none` exactly when no record supplies a numeric
value for `c`, and equals the largest numeric value bound to `c` across
the records' cpu_usage mappings otherwise; and symmetrically for
memory_usage. -/
theorem C1_per_component_maxima (shifts : List ShiftRecord) (d c : String)
    (_hlen : shifts.length ≤ 3) (_hdate : ∀ s ∈ shifts, s.date = d) :
    (alookup (aggregateShifts shifts).max_cpu c = none ↔ allVals cpuMap shifts c = []) ∧
    (∀ q : ℚ, q ∈ allVals cpuMap shifts c → (∀ r ∈ allVals cpuMap shifts c, r ≤ q) →
      alookup (aggregateShifts shifts).max_cpu c = some q) ∧
    (alookup (aggregateShifts shifts).max_memory c = none ↔ allVals memMap shifts c = []) ∧
    (∀ q : ℚ, q ∈ allVals memMap shifts c → (∀ r ∈ allVals memMap shifts c, r ≤ q) →
      alookup (aggregateShifts shifts).max_memory c = some q) := by
  refine ⟨?_, ?_, ?_, ?_⟩
  · rw [aggregate_cpu_eq_maxFrom]
    exact maxFrom_none_eq_none_iff _
  · intro q hq hb
    rw [aggregate_cpu_eq_maxFrom]
    exact maxFrom_none_eq_of_isMax _ q hq hb
  · rw [aggregate_mem_eq_maxFrom]
    exact maxFrom_none_eq_none_iff _
  · intro q hq hb
    rw [aggregate_mem_eq_maxFrom]
    exact maxFrom_none_eq_of_isMax _ q hq hb

/-- Witness for C1 on the example scenario: the stored CPU maximum for
component `a` is the largest of the three submitted values, 3. -/
theorem C1_per_component_maxima_witness :
    alookup (aggregateShifts shiftsEx).max_cpu "a" = some (3 : ℚ) :=
  (C1_per_component_maxima shiftsEx "2024-01-01" "a" (by decide) (by decide)).2.1
    (3 : ℚ) (by decide) (by decide)

/-- C2: In the aggregated summary, the availability mapping binds every
component to the value of the earliest shift record (in retrieval order)
that mentions it — its lookup coincides with the first binding in the
concatenation of the shifts' availability items, so a later record never
overrides an earlier one, regardless of value content. -/
theorem C2_first_write_wins (shifts : List ShiftRecord) (c : String) :
    alookup (aggregateShifts shifts).application_availability c =
      alookup (allAvailPairs shifts) c :=
  aggregate_avail_eq_first shifts c

/-- C4: A shift insertion accepted by `/add` invokes the aggregation if
and only if the per-date record count equals exactly 3 immediately after
the insert. -/
theorem C4_trigger_iff_count_three (st : Store) (r : ShiftRecord) :
    (add_data st (some r)).2.2 = true ↔ countByDate (st.metrics ++ [r]) r.date = 3 := by
  unfold add_data
  by_cases h : countByDate (st.metrics ++ [r]) r.date = 3 <;> simp [h]

/-- C5: When fewer than three shift records exist for a date, invoking
the aggregation is a no-op: it returns the diagnostic outcome, leaves the
store unchanged, and the triggering insert still answers 201. -/
theorem C5_insufficient_is_noop (st : Store) (date : String) (r : ShiftRecord)
    (h : (st.metrics.filter (fun s => s.date == date)).length < 3) :
    (∃ msg, runAgg st date = AggOutcome.diagnostic msg) ∧
    applyAgg st date = st ∧
    (add_data st (some r)).2.1 = 201 := by
  have hdiag : runAgg st date = AggOutcome.diagnostic
      ("Not enough shifts for " ++ date ++ ". Expected 3, found " ++
        toString (st.metrics.filter (fun s => s.date == date)).length ++ ".") := by
    unfold runAgg calculate_and_store_max_metrics
    rw [if_pos h]
  refine ⟨⟨_, hdiag⟩, ?_, ?_⟩
  · unfold applyAgg
    rw [hdiag]
  · unfold add_data
    by_cases hc : countByDate (st.metrics ++ [r]) r.date = 3 <;> simp [hc]

/-- Witness for C5: on the empty store the aggregation for any date is a
diagnostic no-op and an insert still answers 201. -/
theorem C5_insufficient_is_noop_witness :
    (∃ msg, runAgg emptyStore "2024-01-01" = AggOutcome.diagnostic msg) ∧
    applyAgg emptyStore "2024-01-01" = emptyStore ∧
    (add_data emptyStore (some shiftEx1)).2.1 = 201 :=
  C5_insufficient_is_noop emptyStore "2024-01-01" shiftEx1 (by decide)

/-- C6: Non-numeric values in the cpu_usage and memory_usage mappings
never influence the computed maxima: deleting every non-numeric entry of
the two numeric groups leaves the whole aggregation result unchanged. -/
theorem C6_nonnumeric_values_inert (shifts : List ShiftRecord) :
    aggregateShifts (shifts.map stripShift) = aggregateShifts shifts :=
  aggregate_strip shifts _

/-- C9: The aggregation is deterministic and idempotent over the store:
re-running it after its own write yields the same outcome, because the
computation reads only the shift records, which the write does not
touch. -/
theorem C9_rerun_same_outcome (st : Store) (date : String) :
    runAgg (applyAgg st date) date = runAgg st date := by
  have hm : (applyAgg st date).metrics = st.metrics := by
    unfold applyAgg
    cases runAgg st date <;> rfl
  unfold runAgg
  rw [hm]

/-- C10: A shift record lacking the cpu_usage, memory_usage or
availability field contributes to the aggregation exactly as if that
field were the empty mapping, and a record lacking all three leaves the
accumulator untouched. -/
theorem C10_missing_field_is_empty (acc : MaxAcc) (r : ShiftRecord) :
    (r.cpu_usage = none →
      shiftStep acc r = shiftStep acc { r with cpu_usage := some [] }) ∧
    (r.memory_usage = none →
      shiftStep acc r = shiftStep acc { r with memory_usage := some [] }) ∧
    (r.Application_Availability = none →
      shiftStep acc r = shiftStep acc { r with Application_Availability := some [] }) ∧
    (r.cpu_usage = none → r.memory_usage = none → r.Application_Availability = none →
      shiftStep acc r = acc) := by
  refine ⟨?_, ?_, ?_, ?_⟩
  · intro h
    simp [shiftStep, h]
  · intro h
    simp [shiftStep, h]
  · intro h
    simp [shiftStep, h]
  · intro h1 h2 h3
    simp [shiftStep, h1, h2, h3]

/-- Witness for C10: the all-fields-missing record leaves the empty
accumulator unchanged. -/
theorem C10_missing_field_is_empty_witness :
    shiftStep { max_cpu := [], max_memory := [], application_availability := [] }
      { date := "2024-01-04", cpu_usage := none, memory_usage := none,
        Application_Availability := none } =
      { max_cpu := [], max_memory := [], application_availability := [] } :=
  (C10_missing_field_is_empty
    { max_cpu := [], max_memory := [], application_availability := [] }
    { date := "2024-01-04", cpu_usage := none, memory_usage := none,
      Application_Availability := none }).2.2.2 rfl rfl rfl

/-- C3 counterexample: on the example scenario the stored summary's keys
are `date`, `cpu_usage`, `memory_usage`, `application_availability` — not
the names `max_cpu_usage` / `max_memory_usage` the claim asserts. -/
theorem C3_keys_counterexample :
    outcomeKeys (calculate_and_store_max_metrics "2024-01-01" shiftsEx) =
      ["date", "cpu_usage", "memory_usage", "application_availability"] ∧
    outcomeKeys (calculate_and_store_max_metrics "2024-01-01" shiftsEx) ≠
      ["date", "max_cpu_usage", "max_memory_usage", "application_availability"] := by
  constructor
  · decide
  · decide

/-- C3 (amended): every successfully stored summary document is assembled
with exactly the fields `date`, `cpu_usage`, `memory_usage` and
`application_availability`, in that order. -/
theorem C3_stored_keys (date : String) (shifts : List ShiftRecord)
    (p : List (String × DocValue))
    (h : calculate_and_store_max_metrics date shifts = AggOutcome.stored p) :
    p.map Prod.fst = ["date", "cpu_usage", "memory_usage", "application_availability"] := by
  unfold calculate_and_store_max_metrics at h
  by_cases hl : shifts.length < 3
  · rw [if_pos hl] at h
    cases h
  · rw [if_neg hl] at h
    injection h with hp
    rw [← hp]
    rfl

/-- Witness for C3 on the example scenario. -/
theorem C3_stored_keys_witness :
    payloadEx.map Prod.fst =
      ["date", "cpu_usage", "memory_usage", "application_availability"] :=
  C3_stored_keys "2024-01-01" shiftsEx payloadEx (by decide)

/-- C7 counterexample: the first shift mentioning component `a` carries
the empty string; the code records that empty value and never replaces it
by the later non-empty `"up"`, so the claim's "first non-empty value" is
not what is stored. -/
theorem C7_empty_not_skipped_counterexample :
    alookup (aggregateShifts shiftsC).application_availability "a" =
      some (Value.str "") ∧
    alookup (aggregateShifts shiftsC).application_availability "a" ≠
      some (Value.str "up") := by
  constructor
  · decide
  · decide

/-- C7 (amended): the availability attribute maps each component to the
first value observed for it across the date's shifts in iteration order,
regardless of content — empty values are not skipped. -/
theorem C7_first_value_recorded (shifts : List ShiftRecord) (c : String) (v : Value)
    (h : alookup (allAvailPairs shifts) c = some v) :
    alookup (aggregateShifts shifts).application_availability c = some v := by
  rw [aggregate_avail_eq_first]
  exact h

/-- Witness for C7: the empty-string value of the earliest mentioning
shift is what ends up recorded. -/
theorem C7_first_value_recorded_witness :
    alookup (aggregateShifts shiftsC).application_availability "a" =
      some (Value.str "") :=
  C7_first_value_recorded shiftsC "a" (Value.str "") (by decide)

/-- C8 counterexample: component `b` appears in the cpu_usage group of
the second record (with a non-numeric value), yet it is absent from the
computed CPU maximum mapping — so the key set is not the union of all
keys appearing in the group. -/
theorem C8_union_counterexample :
    ("b", Value.str "down") ∈ cpuMap shiftB2 ∧ shiftB2 ∈ shiftsB ∧
    alookup (aggregateShifts shiftsB).max_cpu "b" = none := by
  refine ⟨by decide, by decide, by decide⟩

/-- C8 (amended): over three shift records, a component is a key of the
computed CPU (resp. memory) maximum mapping exactly when some record
binds it to at least one numeric value in that group — a union over the
shifts, not an intersection, but restricted to numeric bindings. -/
theorem C8_key_set_union (shifts : List ShiftRecord) (c : String)
    (_hlen : shifts.length = 3) :
    ((alookup (aggregateShifts shifts).max_cpu c).isSome ↔
      ∃ s ∈ shifts, ∃ q : ℚ, (c, Value.num q) ∈ cpuMap s) ∧
    ((alookup (aggregateShifts shifts).max_memory c).isSome ↔
      ∃ s ∈ shifts, ∃ q : ℚ, (c, Value.num q) ∈ memMap s) := by
  constructor
  · rw [Option.isSome_iff_ne_none, aggregate_cpu_eq_maxFrom, ← allVals_ne_nil_iff cpuMap]
    constructor
    · intro hne hnil
      exact hne (by rw [hnil]; rfl)
    · intro hne hnone
      exact hne ((maxFrom_none_eq_none_iff _).mp hnone)
  · rw [Option.isSome_iff_ne_none, aggregate_mem_eq_maxFrom, ← allVals_ne_nil_iff memMap]
    constructor
    · intro hne hnil
      exact hne (by rw [hnil]; rfl)
    · intro hne hnone
      exact hne ((maxFrom_none_eq_none_iff _).mp hnone)

/-- Witness for C8 on the example scenario: component `b` gets a CPU
maximum because shift 2 binds it numerically, even though shifts 1 and 3
do not mention it. -/
theorem C8_key_set_union_witness :
    (alookup (aggregateShifts shiftsEx).max_cpu "b").isSome ↔
      ∃ s ∈ shiftsEx, ∃ q : ℚ, ("b", Value.num q) ∈ cpuMap s :=
  (C8_key_set_union shiftsEx "b" (by decide)).1

end Monitoring
